import Mathlib

/-!
Verification development for the few-shot visual grounding model
`DynamicFSMDETR` (files `models/dynamic_fs_mdetr_resnet.py` and `engine.py`).

The development shallowly embeds the core tensor-level control flow of the
model as pure Lean functions over lists and abstract feature types:

* the fusion concatenation and split of prompt, visual and text token
  streams performed in `DynamicFSMDETR.forward`;
* the Python calling convention of `forward` and its call sites in
  `engine.py`;
* the parameter freezing policy `_freeze_model_parameters`;
* the visual prompt bank construction `_get_visual_prompts`;
* the masked pooling over text positions inside the decoder loop;
* the staged decoder loop with sigmoid box head and state updates;
* the non-finite loss guard in `train_one_epoch`.

Sequences of tokens are modelled as lists, feature vectors as elements of
abstract types, scalar channels as rationals or reals, and the batch
dimension is reduced to a single batch item (the code treats batch items
independently in every construct the claims mention).
-/

namespace FSGrounding

/-! ## Fusion concatenation and split (forward, lines 93 to 110)

The code builds `vl_src = cat([visual_prompts, visu_src, text_src])` and,
after the (optional) fusion encoder, splits with
`visu_feat = vl_feat[:num_visu_token]` and
`language_feat = vl_feat[num_prompts + num_visu_token:]`.
When `vl_encoder is None` the code sets `vl_feat = vl_src`, so the split
acts on the concatenation itself; that configuration is modelled here.
-/

/-- Concatenation of the three token streams in the fixed code order
`[visual prompts, visual tokens, text tokens]` along the sequence axis. -/
def fusionConcat {T : Type} (prompts visual text : List T) : List T :=
  prompts ++ visual ++ text

/-- The split performed by the code after the fusion encoder:
`visu_feat = vl_feat[:numVisuToken]` and
`language_feat = vl_feat[numPrompts + numVisuToken:]`. -/
def fusionSplit {T : Type} (numPrompts numVisuToken : ℕ) (vlFeat : List T) :
    List T × List T :=
  (vlFeat.take numVisuToken, vlFeat.drop (numPrompts + numVisuToken))

/-! ## Python calling convention of forward (forward line 72, engine line 53)

`DynamicFSMDETR.forward(self, img_data, text_data)` declares exactly two
non-self parameters, none of them with a default value and no varargs, so a
positional call succeeds exactly when the number of supplied arguments is
two.  The training loop in `engine.py` calls
`model(img_data, text_data, tem_imgs, tem_txts, category, tem_cat)` with six
positional arguments, and the interface described by the specification
passes four.
-/

/-- Number of non-self parameters of `DynamicFSMDETR.forward`
(`img_data` and `text_data`). -/
def forwardParamCount : ℕ := 2

/-- Number of positional arguments in the call
`model(img_data, text_data, tem_imgs, tem_txts, category, tem_cat)` of
`train_one_epoch`, `evaluate` and `inference` in `engine.py`. -/
def engineCallArgCount : ℕ := 6

/-- Number of arguments of the interface
`forward(image, text, templates, template_labels)` described by the
specification. -/
def specCallArgCount : ℕ := 4

/-- Python positional-call success for a signature with `params` mandatory
positional parameters and no defaults or varargs: the call binds without a
TypeError exactly when the argument count matches. -/
def pythonCallBinds (params args : ℕ) : Bool :=
  params == args

/-! ## Parameter freezing policy (_freeze_model_parameters, lines 19 to 25)

The code iterates over `self.named_parameters()` and executes
`param.requires_grad = False` for every parameter whose dotted name does
not contain any of the substrings `pseudo_embedding`,
`init_sampling_feature`, `update_sampling_queries`; parameters whose name
does contain one of the markers keep their previous flag.
-/

/-- Python substring containment `sub in s` on strings. -/
def containsSub (s sub : String) : Bool :=
  decide (sub.data <:+: s.data)

/-- A named parameter of the model: its dotted name from
`named_parameters()` together with its `requires_grad` flag. -/
structure NamedParam : Type where
  name : String
  requiresGrad : Bool
deriving DecidableEq

/-- The freezing condition of `_freeze_model_parameters`: the parameter
name contains none of the three marker substrings. -/
def freezeCond (name : String) : Bool :=
  !(containsSub name "pseudo_embedding") &&
    !(containsSub name "init_sampling_feature") &&
    !(containsSub name "update_sampling_queries")

/-- A parameter is in the adaptable set kept trainable by the policy when
its name mentions the pseudo-class embedding table, the initial sampling
query constant, or a per-stage query-update projection. -/
def adaptableParam (name : String) : Bool :=
  containsSub name "pseudo_embedding" ||
    containsSub name "init_sampling_feature" ||
    containsSub name "update_sampling_queries"

/-- The loop body of `_freeze_model_parameters` applied to the whole
parameter list: parameters satisfying the freezing condition get
`requires_grad := false`, all others are left untouched. -/
def freezeModelParameters (params : List NamedParam) : List NamedParam :=
  params.map fun p =>
    if freezeCond p.name then { p with requiresGrad := false } else p

/-- A representative parameter list of the model, with the PyTorch default
flag `requires_grad = true` on every parameter: backbone, text encoder,
projections, fusion encoder, per-stage decoder transformers, box head,
initial sampling query, initial reference point, per-stage query-update
projections, and the pseudo-class embedding table. -/
def modelParams : List NamedParam :=
  [⟨"visumodel.backbone.0.body.layer1.0.conv1.weight", true⟩,
   ⟨"textmodel.bert.encoder.layer.0.attention.self.query.weight", true⟩,
   ⟨"visu_proj.weight", true⟩,
   ⟨"text_proj.weight", true⟩,
   ⟨"vl_pos_embed.weight", true⟩,
   ⟨"vl_encoder.layers.0.linear1.weight", true⟩,
   ⟨"vl_transformer.0.decoder.layers.0.self_attn.in_proj_weight", true⟩,
   ⟨"bbox_embed.layers.0.weight", true⟩,
   ⟨"init_sampling_feature.weight", true⟩,
   ⟨"init_reference_point.weight", true⟩,
   ⟨"update_sampling_queries.0.layers.0.weight", true⟩,
   ⟨"pseudo_embedding.embeddings", true⟩]

/-! ## Non-finite loss guard (train_one_epoch, lines 63 to 68)

The training loop computes a scalar `loss_value` and executes
`if not math.isfinite(loss_value): print(...); sys.exit(1)`; otherwise the
optimizer step proceeds.  Scalar loss values are modelled as either a
finite rational or one of the three non-finite IEEE classes.
-/

/-- Scalar loss value as seen by `math.isfinite`: a finite number or one of
the non-finite classes NaN, positive infinity, negative infinity. -/
inductive LossValue : Type
  | finite (q : ℚ)
  | nan
  | posInf
  | negInf
deriving DecidableEq

/-- Semantics of `math.isfinite` on a scalar loss value. -/
def LossValue.isfinite : LossValue → Bool
  | .finite _ => true
  | .nan => false
  | .posInf => false
  | .negInf => false

/-- Outcome of the guard around the optimizer step in `train_one_epoch`:
either the run aborts with an exit code or the step proceeds. -/
inductive TrainStepOutcome : Type
  | aborted (exitCode : ℕ)
  | stepped
deriving DecidableEq

/-- The guard in `train_one_epoch`:
`if not math.isfinite(loss_value): sys.exit(1)` else continue with the
optimizer step. -/
def lossGuard (lossValue : LossValue) : TrainStepOutcome :=
  if lossValue.isfinite then .stepped else .aborted 1

/-! ## Masked pooling over text positions (forward, lines 131 to 135)

The code computes `text_select = 1 - text_mask` (weight 1 on valid
positions, 0 on padding, with mask convention true = padding), sums it to
`text_select_num`, and pools the decode output as
`(text_select * vg_hs).sum(dim=1) / text_select_num`.  One batch item and
one feature channel are modelled; the decode output is a list of rational
scalars aligned with the mask.
-/

/-- Per-position selection weight `1 - text_mask * 1.0`: weight 1 on a
valid position (mask entry false), weight 0 on padding (mask entry true). -/
def selectWeight (m : Bool) : ℚ :=
  1 - (if m then 1 else 0)

/-- The per-batch scalar `text_select_num`: sum of the selection weights
over all text positions. -/
def textSelectNum (textMask : List Bool) : ℚ :=
  (textMask.map selectWeight).sum

/-- Masked pooling `(text_select * vg_hs).sum(dim=1) / text_select_num`:
the weighted sum of the decode outputs over the text length dimension
divided by the valid-position count. -/
def maskedTextPool (textMask : List Bool) (decodeOut : List ℚ) : ℚ :=
  (List.zipWith (fun m d => selectWeight m * d) textMask decodeOut).sum
    / textSelectNum textMask

/-- Number of valid (non-padding) text positions of a mask. -/
def validCount (textMask : List Bool) : ℕ :=
  textMask.countP (fun m => !m)

/-! ## Visual prompt bank construction (_get_visual_prompts, lines 27 to 70)

The code iterates over `torch.unique(template_labels)` — the distinct
label values in ascending order — and, inside each label group, over
`(template_labels == label).nonzero(...)` — the template indices of that
label in ascending index order.  For each visited template it pools the
backbone feature to one vector, draws one random row index of the
pseudo-embedding table, and appends `pooled + row` to the bank.  The
pooled feature of template `i` and the table row lookup are abstracted as
functions into an additive feature type; the row drawn by the k-th
`random.randint` call of the construction is `choice k`.
-/

/-- Label value of template `i` (default 0 outside the template range). -/
def labelAt (labels : List ℤ) (i : ℕ) : ℤ :=
  labels.getD i 0

/-- The result of `torch.unique(template_labels)`: distinct label values
in ascending order. -/
def torchUnique (labels : List ℤ) : List ℤ :=
  List.insertionSort (· ≤ ·) labels.dedup

/-- The result of `(template_labels == label).nonzero(as_tuple=True)[0]`:
indices of the templates carrying the given label, in ascending order. -/
def labelIndices (labels : List ℤ) (l : ℤ) : List ℕ :=
  (List.range labels.length).filter fun i => labelAt labels i == l

/-- Template visiting order of the double loop of `_get_visual_prompts`:
label groups in the order of `torch.unique`, indices ascending inside each
group. -/
def bankIndexOrder (labels : List ℤ) : List ℕ :=
  (torchUnique labels).flatMap (labelIndices labels)

/-- The visual prompt bank: one entry per visited template, equal to the
pooled backbone feature of that template plus the pseudo-embedding table
row drawn by the k-th random call. -/
def getVisualPrompts {α : Type} [Add α] (pooledFeature : ℕ → α)
    (pseudoRow : ℕ → α) (choice : ℕ → ℕ) (labels : List ℤ) : List α :=
  (bankIndexOrder labels).enum.map fun ki =>
    pooledFeature ki.2 + pseudoRow (choice ki.1)

/-! ## Seeded randomness of the prompt constructor (lines 60 to 62)

The embedding row of each bank entry is drawn by `random.randint`, whose
generator lives in the Python standard library outside this repository.
-/

/-- Modelled from the spec: the determinism scenario fixes a random seed
for the embedding-row selection of the Prompt Constructor; the seeded
random source itself (the Python `random` module) is external code, and is
modelled as a deterministic linear congruential generator on 64-bit
state. -/
def lcgNext (s : ℕ) : ℕ :=
  (6364136223846793005 * s + 1442695040888963407) % 2 ^ 64

/-- State of the seeded random source after a number of draws. -/
def rngState (seed : ℕ) : ℕ → ℕ
  | 0 => seed % 2 ^ 64
  | k + 1 => lcgNext (rngState seed k)

/-- Row index produced by the k-th `random.randint(0, numClasses - 1)`
call after seeding the source. -/
def randintChoice (seed numClasses k : ℕ) : ℕ :=
  rngState seed (k + 1) % numClasses

/-- One full run of the determinism scenario: seed the random source,
build the visual prompt bank with the seeded row choices, then apply the
forward computation — abstracted as an arbitrary function of the bank,
standing for the fixed model weights and the fixed image and text inputs —
to obtain the predicted box. -/
def seededRun {α : Type} [Add α]
    (forwardOnBank : List α → Option (Fin 4 → ℝ))
    (pooledFeature pseudoRow : ℕ → α) (labels : List ℤ)
    (numClasses seed : ℕ) : Option (Fin 4 → ℝ) :=
  forwardOnBank
    (getVisualPrompts pooledFeature pseudoRow
      (randintChoice seed numClasses) labels)

/-! ## Iterative sampling decoder (forward, lines 112 to 143)

The loop `for i in range(0, self.stages)` carries the sampling query, the
reference point, and the language feature stream (reassigned to
`vg_hs[0]` each stage), and overwrites `pred_box` each iteration; the
variable is initialized to `None` before the loop and returned after it.
The opaque per-stage computations — `feautures_sampling`, the per-stage
`vl_transformer` block, the pooled-vector projection chain and the box head
MLP `bbox_embed` before its final sigmoid — are abstracted as functions of
a decoder context; the sigmoid squashing and the state update wiring are
modelled exactly.  `Q` is the sampling query type, `D` the language
feature stream type, `F` the sampled feature set type, `E` the sampled
positional encoding type, `V` the pooled vector type.
-/

/-- The sigmoid squashing applied by `pred_box = self.bbox_embed(vg_hs)
.sigmoid()`. -/
noncomputable def sigmoid (x : ℝ) : ℝ :=
  1 / (1 + Real.exp (-x))

/-- Opaque per-stage computations and learned constants used by the
decoder loop of `forward`: the adaptive feature sampling, the per-stage
text-guided transformer block, the masked pooling to one vector per batch
item, the box head before its sigmoid, the per-stage query-update
projections applied to the concatenation of pooled vector and previous
query, the learned initial sampling query and initial reference point, and
the refined language stream entering the loop from the fusion encoder. -/
structure DecoderCtx (Q D F E V : Type) : Type where
  feauturesSampling : ℕ → Q → (Fin 2 → ℝ) → F × E
  vlTransformer : ℕ → F → E → D → D
  maskedPool : D → V
  bboxEmbed : V → Fin 4 → ℝ
  updateSamplingQueries : ℕ → V → Q → Q
  initSamplingFeature : Q
  initReferencePoint : Fin 2 → ℝ
  languageFeat0 : D

/-- Mutable loop state of the decoder: sampling query, 2D reference point,
current language feature stream, and the `pred_box` variable which is
`None` until the first stage assigns it. -/
structure DecoderState (Q D : Type) : Type where
  samplingQuery : Q
  referencePoint : Fin 2 → ℝ
  languageFeat : D
  predBox : Option (Fin 4 → ℝ)

variable {Q D F E V : Type}

/-- One iteration of the decoder loop at stage `i`: adaptive sampling from
the current query and reference point, text-guided decode, masked pooling,
sigmoid box head, then the state update
`reference_point = pred_box[:, :2]` and
`sampling_query = update_sampling_queries[i](cat(vg_hs, sampling_query))`,
with `language_feat` reassigned to the decode output. -/
noncomputable def stageStep (ctx : DecoderCtx Q D F E V) (i : ℕ)
    (s : DecoderState Q D) : DecoderState Q D :=
  let sampled := ctx.feauturesSampling i s.samplingQuery s.referencePoint
  let vgHs := ctx.vlTransformer i sampled.1 sampled.2 s.languageFeat
  let pooled := ctx.maskedPool vgHs
  let box : Fin 4 → ℝ := fun k => sigmoid (ctx.bboxEmbed pooled k)
  { samplingQuery := ctx.updateSamplingQueries i pooled s.samplingQuery
    referencePoint := fun k => box ⟨k.val, by omega⟩
    languageFeat := vgHs
    predBox := some box }

/-- Loop state before stage `n`: the initial state broadcasts the learned
constants and carries `pred_box = None`; each further state is one
application of the stage transition. -/
noncomputable def decoderLoop (ctx : DecoderCtx Q D F E V) :
    ℕ → DecoderState Q D
  | 0 =>
    { samplingQuery := ctx.initSamplingFeature
      referencePoint := ctx.initReferencePoint
      languageFeat := ctx.languageFeat0
      predBox := none }
  | n + 1 => stageStep ctx n (decoderLoop ctx n)

/-- The pooled vector `vg_hs` computed during stage `i`. -/
noncomputable def stagePooled (ctx : DecoderCtx Q D F E V) (i : ℕ) : V :=
  let s := decoderLoop ctx i
  let sampled := ctx.feauturesSampling i s.samplingQuery s.referencePoint
  ctx.maskedPool (ctx.vlTransformer i sampled.1 sampled.2 s.languageFeat)

/-- The box predicted at stage `i`: sigmoid of the box head applied to the
pooled vector of that stage. -/
noncomputable def stageBox (ctx : DecoderCtx Q D F E V) (i : ℕ) :
    Fin 4 → ℝ :=
  fun k => sigmoid (ctx.bboxEmbed (stagePooled ctx i) k)

/-- Return value of `forward` for a configured stage count: the `pred_box`
variable after the loop has run `stages` times. -/
noncomputable def fsForward (ctx : DecoderCtx Q D F E V) (stages : ℕ) :
    Option (Fin 4 → ℝ) :=
  (decoderLoop ctx stages).predBox

end FSGrounding

namespace FSGrounding

/-- C1: evaluation of the fusion split at a concrete failing input.  With
one prompt token `0`, visual tokens `[1, 2]` and one text token `3`, and the
fusion encoder disabled, the code splits the concatenation
`[0, 1, 2, 3]` into visual stream `vl_feat[:2] = [0, 1]` — the prompt token
followed by only the first visual token — and text stream
`vl_feat[1 + 2:] = [3]`.  The claim says the visual stream is exactly the
visual tokens `[1, 2]`; the code disagrees, because the visual slice starts
at offset 0 instead of offset `numPrompts`. -/
theorem fusionSplit_eval_failing_input :
    fusionSplit 1 2 (fusionConcat [0] [1, 2] [3]) = ([0, 1], [3]) ∧
      fusionSplit 1 2 (fusionConcat [0] [1, 2] [3]) ≠ ([1, 2], [3]) := by
  constructor
  · rfl
  · decide

/-- C2: evaluation of the calling convention at the failing input.  The
forward method of `DynamicFSMDETR` declares two non-self parameters, so
neither the six-argument call written in `engine.py` nor the four-argument
interface described by the specification binds; only a two-argument call
does. -/
theorem forward_call_arity_failing_input :
    pythonCallBinds forwardParamCount engineCallArgCount = false ∧
      pythonCallBinds forwardParamCount specCallArgCount = false ∧
      pythonCallBinds forwardParamCount 2 = true := by
  decide

/-- Helper: the freezing condition is the Boolean negation of membership in
the adaptable set. -/
theorem freezeCond_eq_not_adaptable (name : String) :
    freezeCond name = !(adaptableParam name) := by
  simp [freezeCond, adaptableParam]

/-- C3: after `_freeze_model_parameters` runs on a parameter list whose
flags all carry the PyTorch default `requires_grad = true`, the names are
unchanged and a parameter keeps a true trainable flag exactly when its name
mentions the pseudo-class embedding table, the initial sampling query
constant, or a per-stage query-update projection; every other parameter has
its trainable flag set to false. -/
theorem freeze_trainable_iff_adaptable (params : List NamedParam)
    (h : ∀ p ∈ params, p.requiresGrad = true) :
    (freezeModelParameters params).map NamedParam.name
        = params.map NamedParam.name ∧
      (freezeModelParameters params).map NamedParam.requiresGrad
        = params.map fun p => adaptableParam p.name := by
  induction params with
  | nil => simp [freezeModelParameters]
  | cons p ps ih =>
    have hp : p.requiresGrad = true := h p (List.mem_cons_self p ps)
    have hps : ∀ q ∈ ps, q.requiresGrad = true := fun q hq =>
      h q (List.mem_cons_of_mem p hq)
    obtain ⟨ih1, ih2⟩ := ih hps
    constructor
    · simp only [freezeModelParameters, List.map_cons] at ih1 ⊢
      refine congrArg₂ List.cons ?_ ih1
      by_cases hc : freezeCond p.name = true
      · simp [hc]
      · simp [hc]
    · simp only [freezeModelParameters, List.map_cons] at ih2 ⊢
      refine congrArg₂ List.cons ?_ ih2
      rw [freezeCond_eq_not_adaptable]
      by_cases ha : adaptableParam p.name = true
      · simp [ha, hp]
      · simp only [Bool.not_eq_true] at ha
        simp [ha]

/-- Witness for C3: applying the policy to the representative parameter
list keeps exactly the embedding table, the initial sampling query and the
query-update projection trainable. -/
theorem freeze_trainable_iff_adaptable_witness :
    (freezeModelParameters modelParams).map NamedParam.name
        = modelParams.map NamedParam.name ∧
      (freezeModelParameters modelParams).map NamedParam.requiresGrad
        = modelParams.map fun p => adaptableParam p.name :=
  freeze_trainable_iff_adaptable modelParams (by decide)

/-- Helper: the selection weight of a padding position is 0. -/
theorem selectWeight_true : selectWeight true = 0 := by
  norm_num [selectWeight]

/-- Helper: the selection weight of a valid position is 1. -/
theorem selectWeight_false : selectWeight false = 1 := by
  norm_num [selectWeight]

/-- Helper: the scalar `text_select_num` equals the number of valid text
positions, cast to the scalar type. -/
theorem textSelectNum_eq_validCount (textMask : List Bool) :
    textSelectNum textMask = (validCount textMask : ℚ) := by
  induction textMask with
  | nil => simp [textSelectNum, validCount]
  | cons m ms ih =>
    cases m with
    | true =>
      simp only [textSelectNum, List.map_cons, List.sum_cons, selectWeight_true,
        zero_add, validCount, List.countP_cons, Bool.not_true] at ih ⊢
      simpa [textSelectNum, validCount] using ih
    | false =>
      simp only [textSelectNum, List.map_cons, List.sum_cons, selectWeight_false,
        validCount, List.countP_cons, Bool.not_false] at ih ⊢
      rw [ih]
      push_cast
      ring

/-- Helper: a mask position holding false under `getD` with default true is
an actual valid position of the mask. -/
theorem false_mem_of_getD (ms : List Bool) (j : ℕ)
    (h : ms.getD j true = false) : false ∈ ms := by
  by_cases hj : j < ms.length
  · rw [List.getD_eq_getElem ms true hj] at h
    exact h ▸ List.getElem_mem hj
  · rw [List.getD_eq_default ms true (Nat.le_of_not_lt hj)] at h
    exact absurd h (by simp)

/-- Helper: when the mask has no valid position, every selection weight is
0 and the weighted sum vanishes. -/
theorem weighted_sum_eq_zero (ms : List Bool) (ds : List ℚ)
    (h : validCount ms = 0) :
    (List.zipWith (fun m d => selectWeight m * d) ms ds).sum = 0 := by
  induction ms generalizing ds with
  | nil => simp
  | cons m tail ih =>
    cases ds with
    | nil => simp
    | cons d dtail =>
      cases m with
      | true =>
        simp only [validCount, List.countP_cons, Bool.not_true] at h
        simp only [List.zipWith_cons_cons, List.sum_cons, selectWeight_true,
          zero_mul, zero_add]
        exact ih dtail h
      | false =>
        simp [validCount, List.countP_cons] at h

/-- Helper: when the mask has exactly one valid position `j`, the weighted
sum of the decode outputs equals the decode output at position `j`. -/
theorem weighted_sum_single (ms : List Bool) (ds : List ℚ) (j : ℕ)
    (hlen : ds.length = ms.length) (hone : validCount ms = 1)
    (hj : ms.getD j true = false) :
    (List.zipWith (fun m d => selectWeight m * d) ms ds).sum = ds.getD j 0 := by
  induction ms generalizing ds j with
  | nil => simp at hj
  | cons m tail ih =>
    cases ds with
    | nil => simp at hlen
    | cons d dtail =>
      simp only [List.length_cons, Nat.succ_inj] at hlen
      cases m with
      | true =>
        simp only [validCount, List.countP_cons, Bool.not_true] at hone
        cases j with
        | zero => simp at hj
        | succ j' =>
          simp only [List.getD_cons_succ] at hj ⊢
          simp only [List.zipWith_cons_cons, List.sum_cons, selectWeight_true,
            zero_mul, zero_add]
          exact ih dtail j' hlen (by simpa using hone) hj
      | false =>
        have htail : validCount tail = 0 := by
          simp [validCount, List.countP_cons] at hone
          simpa [validCount] using hone
        cases j with
        | zero =>
          simp only [List.getD_cons_zero]
          simp only [List.zipWith_cons_cons, List.sum_cons, selectWeight_false,
            one_mul]
          rw [weighted_sum_eq_zero tail dtail htail]
          ring
        | succ j' =>
          simp only [List.getD_cons_succ] at hj
          have : false ∈ tail := false_mem_of_getD tail j' hj
          have : 0 < validCount tail := by
            rw [validCount, List.countP_pos_iff]
            exact ⟨false, this, rfl⟩
          omega

/-- C5: on a batch item with at least one valid (non-padding) text token,
the pooling step divides by the count of valid positions: the denominator
`text_select_num` equals the valid-position count, is nonzero, and differs
from the total padded length whenever any padding is present; moreover with
exactly one valid token the pooled scalar equals that single position
decode output exactly. -/
theorem maskedTextPool_correct (textMask : List Bool) (decodeOut : List ℚ)
    (hlen : decodeOut.length = textMask.length)
    (hvalid : false ∈ textMask) :
    textSelectNum textMask = (validCount textMask : ℚ) ∧
      textSelectNum textMask ≠ 0 ∧
      (true ∈ textMask → textSelectNum textMask ≠ (textMask.length : ℚ)) ∧
      (∀ j, validCount textMask = 1 → textMask.getD j true = false →
        maskedTextPool textMask decodeOut = decodeOut.getD j 0) := by
  have hpos : 0 < validCount textMask := by
    rw [validCount, List.countP_pos_iff]
    exact ⟨false, hvalid, rfl⟩
  refine ⟨textSelectNum_eq_validCount textMask, ?_, ?_, ?_⟩
  · rw [textSelectNum_eq_validCount]
    have hne : validCount textMask ≠ 0 := by omega
    exact_mod_cast hne
  · intro hpad
    rw [textSelectNum_eq_validCount]
    intro hcontra
    have hne : validCount textMask = textMask.length := by exact_mod_cast hcontra
    have : ∀ m ∈ textMask, (!m) = true := by
      rw [← List.countP_eq_length]
      exact hne
    have := this true hpad
    simp at this
  · intro j hone hj
    rw [maskedTextPool, weighted_sum_single textMask decodeOut j hlen hone hj,
      textSelectNum_eq_validCount, hone]
    norm_num

/-- Witness for C5: mask `[padding, valid, padding]` with decode outputs
`[5, 7, 9]` pools to exactly the decode output 7 of the single valid
position, and the denominator is nonzero. -/
theorem maskedTextPool_correct_witness :
    textSelectNum [true, false, true] ≠ 0 ∧
      maskedTextPool [true, false, true] [5, 7, 9]
        = ([5, 7, 9] : List ℚ).getD 1 0 :=
  ⟨(maskedTextPool_correct [true, false, true] [5, 7, 9] (by decide)
      (by decide)).2.1,
   (maskedTextPool_correct [true, false, true] [5, 7, 9] (by decide)
      (by decide)).2.2.2 1 (by decide) (by decide)⟩

/-- Helper: membership in a label group means the index is in range and
carries that label. -/
theorem mem_labelIndices {labels : List ℤ} {l : ℤ} {i : ℕ} :
    i ∈ labelIndices labels l ↔ i < labels.length ∧ labelAt labels i = l := by
  simp [labelIndices, List.mem_filter, List.mem_range]

/-- Helper: `torch.unique` output is a permutation of the deduplicated
label list. -/
theorem torchUnique_perm_dedup (labels : List ℤ) :
    (torchUnique labels).Perm labels.dedup :=
  List.perm_insertionSort (· ≤ ·) labels.dedup

/-- Helper: `torch.unique` output has no duplicate labels. -/
theorem torchUnique_nodup (labels : List ℤ) : (torchUnique labels).Nodup :=
  (torchUnique_perm_dedup labels).symm.nodup (List.nodup_dedup labels)

/-- Helper: `torch.unique` output contains exactly the labels that occur. -/
theorem mem_torchUnique {labels : List ℤ} {l : ℤ} :
    l ∈ torchUnique labels ↔ l ∈ labels := by
  rw [(torchUnique_perm_dedup labels).mem_iff, List.mem_dedup]

/-- Helper: `torch.unique` output is strictly ascending. -/
theorem torchUnique_sorted_lt (labels : List ℤ) :
    List.Sorted (· < ·) (torchUnique labels) :=
  List.Sorted.lt_of_le
    (List.sorted_insertionSort (· ≤ ·) labels.dedup)
    (torchUnique_nodup labels)

/-- Helper: multiplicity of a template index inside one label group. -/
theorem count_labelIndices (labels : List ℤ) (l : ℤ) (i : ℕ) :
    List.count i (labelIndices labels l)
      = if i < labels.length ∧ labelAt labels i = l then 1 else 0 := by
  have hnd : (labelIndices labels l).Nodup :=
    (List.nodup_range labels.length).filter _
  by_cases h : i < labels.length ∧ labelAt labels i = l
  · rw [if_pos h]
    exact List.count_eq_one_of_mem hnd (mem_labelIndices.mpr h)
  · rw [if_neg h, List.count_eq_zero]
    exact fun hmem => h (mem_labelIndices.mp hmem)

/-- Helper: an indicator sum over a list avoiding the marked value is 0. -/
theorem sum_indicator_not_mem (u : List ℤ) (a : ℤ) (h : a ∉ u) :
    (u.map fun l => if l = a then (1 : ℕ) else 0).sum = 0 := by
  induction u with
  | nil => simp
  | cons b u' ih =>
    simp only [List.mem_cons, not_or] at h
    have hb : ¬b = a := fun hba => h.1 hba.symm
    simp [hb, ih h.2]

/-- Helper: an indicator sum over a duplicate-free list containing the
marked value once is 1. -/
theorem sum_indicator_nodup_mem (u : List ℤ) (a : ℤ) (hnd : u.Nodup)
    (ha : a ∈ u) :
    (u.map fun l => if l = a then (1 : ℕ) else 0).sum = 1 := by
  induction u with
  | nil => simp at ha
  | cons b u' ih =>
    rw [List.nodup_cons] at hnd
    rcases List.mem_cons.mp ha with hb | hu
    · subst hb
      simp [sum_indicator_not_mem u' a hnd.1]
    · have hb : ¬b = a := fun hba => hnd.1 (hba ▸ hu)
      simp [hb, ih hnd.2 hu]

/-- Helper: the template visiting order of the prompt constructor is a
permutation of all template indices — every supplied template contributes
exactly one bank entry. -/
theorem bankIndexOrder_perm (labels : List ℤ) :
    (bankIndexOrder labels).Perm (List.range labels.length) := by
  rw [List.perm_iff_count]
  intro i
  rw [bankIndexOrder, List.count_flatMap]
  by_cases hi : i < labels.length
  · have hl0 : labelAt labels i ∈ labels := by
      rw [labelAt, List.getD_eq_getElem labels 0 hi]
      exact List.getElem_mem hi
    have hmem : labelAt labels i ∈ torchUnique labels :=
      mem_torchUnique.mpr hl0
    have hmap : (torchUnique labels).map (List.count i ∘ labelIndices labels)
        = (torchUnique labels).map
            fun l => if l = labelAt labels i then 1 else 0 := by
      apply List.map_congr_left
      intro l _
      simp only [Function.comp_apply, count_labelIndices]
      by_cases he : labelAt labels i = l
      · rw [if_pos ⟨hi, he⟩, if_pos he.symm]
      · rw [if_neg fun hc => he hc.2, if_neg fun hc => he hc.symm]
    rw [hmap,
      sum_indicator_nodup_mem (torchUnique labels) (labelAt labels i)
        (torchUnique_nodup labels) hmem,
      List.count_eq_one_of_mem (List.nodup_range labels.length)
        (List.mem_range.mpr hi)]
  · have hz : ∀ x ∈ (torchUnique labels).map
        (List.count i ∘ labelIndices labels), x = 0 := by
      intro x hx
      obtain ⟨l, _, rfl⟩ := List.mem_map.mp hx
      simp only [Function.comp_apply, count_labelIndices]
      rw [if_neg fun hc => hi hc.1]
    rw [List.sum_eq_zero hz, Eq.comm, List.count_eq_zero]
    exact fun hmem => hi (List.mem_range.mp hmem)

/-- Helper: the template visiting order is sorted by label value first and
by template index inside equal labels. -/
theorem bankIndexOrder_pairwise (labels : List ℤ) :
    (bankIndexOrder labels).Pairwise fun i j =>
      labelAt labels i < labelAt labels j ∨
        (labelAt labels i = labelAt labels j ∧ i < j) := by
  rw [bankIndexOrder, List.flatMap_def]
  refine List.pairwise_flatten.mpr ⟨?_, ?_⟩
  · intro lst hlst
    obtain ⟨l, _, rfl⟩ := List.mem_map.mp hlst
    have h1 : (labelIndices labels l).Pairwise (· < ·) :=
      (List.pairwise_lt_range labels.length).filter _
    refine h1.imp_of_mem ?_
    intro a b ha hb hab
    right
    exact ⟨by rw [(mem_labelIndices.mp ha).2, (mem_labelIndices.mp hb).2], hab⟩
  · rw [List.pairwise_map]
    refine List.Pairwise.imp ?_ (torchUnique_sorted_lt labels)
    intro l₁ l₂ hlt x hx y hy
    left
    rw [(mem_labelIndices.mp hx).2, (mem_labelIndices.mp hy).2]
    exact hlt

/-- C4: the visual prompt bank has one entry per supplied template — the
visiting order is a permutation of all template indices — the order is by
ascending label group and ascending template index inside a group, and the
k-th bank entry equals the pooled feature of the k-th visited template plus
the pseudo-embedding row drawn by the k-th random call. -/
theorem getVisualPrompts_correct {α : Type} [Add α] (pooledFeature : ℕ → α)
    (pseudoRow : ℕ → α) (choice : ℕ → ℕ) (labels : List ℤ) :
    (getVisualPrompts pooledFeature pseudoRow choice labels).length
        = labels.length ∧
      (bankIndexOrder labels).Perm (List.range labels.length) ∧
      ((bankIndexOrder labels).Pairwise fun i j =>
        labelAt labels i < labelAt labels j ∨
          (labelAt labels i = labelAt labels j ∧ i < j)) ∧
      getVisualPrompts pooledFeature pseudoRow choice labels
        = (bankIndexOrder labels).enum.map
            fun ki => pooledFeature ki.2 + pseudoRow (choice ki.1) := by
  refine ⟨?_, bankIndexOrder_perm labels, bankIndexOrder_pairwise labels, rfl⟩
  rw [getVisualPrompts, List.length_map, List.enum_length,
    (bankIndexOrder_perm labels).length_eq, List.length_range]

/-- Helper: the sigmoid squashing always lands strictly inside the unit
interval. -/
theorem sigmoid_bounds (x : ℝ) : 0 < sigmoid x ∧ sigmoid x < 1 := by
  have hexp : 0 < Real.exp (-x) := Real.exp_pos (-x)
  have hden : 0 < 1 + Real.exp (-x) := by linarith
  constructor
  · exact div_pos one_pos hden
  · rw [sigmoid, div_lt_one hden]
    linarith

/-- C6: at every decoder stage, all 4 coordinates of the predicted box lie
in the closed unit interval regardless of the pre-activation values
produced by the box head, and the reference point after each stage update
lies in the unit square. -/
theorem stageBox_in_unit_interval {Q D F E V : Type}
    (ctx : DecoderCtx Q D F E V) (i : ℕ) :
    (∀ k : Fin 4, 0 ≤ stageBox ctx i k ∧ stageBox ctx i k ≤ 1) ∧
      (∀ k : Fin 2, 0 ≤ (decoderLoop ctx (i + 1)).referencePoint k ∧
        (decoderLoop ctx (i + 1)).referencePoint k ≤ 1) := by
  have hbox : ∀ k : Fin 4, 0 ≤ stageBox ctx i k ∧ stageBox ctx i k ≤ 1 := by
    intro k
    obtain ⟨h0, h1⟩ := sigmoid_bounds (ctx.bboxEmbed (stagePooled ctx i) k)
    exact ⟨le_of_lt h0, le_of_lt h1⟩
  refine ⟨hbox, ?_⟩
  intro k
  have href : (decoderLoop ctx (i + 1)).referencePoint k
      = stageBox ctx i ⟨k.val, by omega⟩ := rfl
  rw [href]
  exact hbox ⟨k.val, by omega⟩

/-- C7: at every decoder stage, the next reference point is exactly the
center pair of that stage predicted box — width and height are not fed
back — and the next sampling query is the stage-specific projection applied
to the pooled vector and the previous sampling query. -/
theorem decoder_state_update {Q D F E V : Type}
    (ctx : DecoderCtx Q D F E V) (i : ℕ) :
    (decoderLoop ctx (i + 1)).referencePoint
        = (fun k : Fin 2 => stageBox ctx i ⟨k.val, by omega⟩) ∧
      (decoderLoop ctx (i + 1)).samplingQuery
        = ctx.updateSamplingQueries i (stagePooled ctx i)
            ((decoderLoop ctx i).samplingQuery) := by
  exact ⟨rfl, rfl⟩

/-- C10: with stage count 0 the loop body never runs and `forward` returns
the initialization `None` rather than a box; with any positive stage count
the return value is exactly the box predicted at the final stage, every
intermediate box having been overwritten. -/
theorem fsForward_final_stage {Q D F E V : Type}
    (ctx : DecoderCtx Q D F E V) :
    fsForward ctx 0 = none ∧
      ∀ stages : ℕ, fsForward ctx (stages + 1) = some (stageBox ctx stages) :=
  ⟨rfl, fun _ => rfl⟩

/-- C8: with a fixed seed governing the embedding-row selection and fixed
weights and inputs (the abstracted forward function and feature maps), two
runs of prompt construction followed by forward on identical inputs yield
identical predicted boxes: the whole pipeline is a deterministic function
of the seed and the inputs. -/
theorem seededRun_deterministic {α : Type} [Add α]
    (forwardOnBank : List α → Option (Fin 4 → ℝ))
    (pooledFeature pseudoRow : ℕ → α) (labels : List ℤ)
    (numClasses seed₁ seed₂ : ℕ) (h : seed₁ = seed₂) :
    seededRun forwardOnBank pooledFeature pseudoRow labels numClasses seed₁
      = seededRun forwardOnBank pooledFeature pseudoRow labels numClasses
          seed₂ := by
  rw [h]

/-- Witness for C8: two runs with seed 42, two templates with labels 0 and
1, a 3-row embedding table and a concrete integer feature model produce the
same output. -/
theorem seededRun_deterministic_witness :
    seededRun (fun bank => some fun _ => (bank.length : ℝ))
        (fun i => (i : ℤ)) (fun r => (r : ℤ)) [0, 1] 3 42
      = seededRun (fun bank => some fun _ => (bank.length : ℝ))
          (fun i => (i : ℤ)) (fun r => (r : ℤ)) [0, 1] 3 42 :=
  seededRun_deterministic (fun bank => some fun _ => (bank.length : ℝ))
    (fun i => (i : ℤ)) (fun r => (r : ℤ)) [0, 1] 3 42 42 rfl

/-- C9: during training, a non-finite aggregated scalar loss makes the run
abort immediately with exit code 1, and a finite loss never triggers the
abort. -/
theorem lossGuard_aborts_iff_nonfinite (lossValue : LossValue) :
    (lossValue.isfinite = false → lossGuard lossValue = .aborted 1) ∧
      (lossValue.isfinite = true → lossGuard lossValue = .stepped) := by
  constructor
  · intro h
    simp [lossGuard, h]
  · intro h
    simp [lossGuard, h]

/-- Witness for C9: the guard applied to NaN aborts with exit code 1, and
applied to the finite loss 0 proceeds with the optimizer step. -/
theorem lossGuard_aborts_iff_nonfinite_witness :
    lossGuard .nan = .aborted 1 ∧ lossGuard (.finite 0) = .stepped :=
  ⟨(lossGuard_aborts_iff_nonfinite .nan).1 rfl,
   (lossGuard_aborts_iff_nonfinite (.finite 0)).2 rfl⟩

end FSGrounding
